import Mathlib

/-!
Verification of the prometheus-cloudwatch-database-insights-exporter scrape
pipeline.  Go strings are modelled as Lean `String`s manipulated through their
underlying `List Char` (the code only handles ASCII data); Go maps are
association lists; Go time values are natural numbers (Unix nanoseconds);
machine integers are `Int`/`Nat`.  Each definition mirrors one function of the
source tree and keeps its name where Lean allows it.
-/

namespace DBI

/-! ## Go string primitives (`strings` package operations used by the code) -/

/-- `strings.ToLower` restricted to ASCII, as used on metric names and engine
strings. -/
def goToLower (s : String) : String := ⟨s.data.map Char.toLower⟩

/-- `strings.HasPrefix`. -/
def goStartsWith (s pre : String) : Bool := pre.data.isPrefixOf s.data

/-- `strings.HasSuffix`. -/
def goEndsWith (s suf : String) : Bool := suf.data.isSuffixOf s.data

/-- `strings.TrimSuffix`: drops `suf` when it is a suffix of `s`, else `s`. -/
def goTrimSuffix (s suf : String) : String :=
  if goEndsWith s suf then ⟨s.data.take (s.data.length - suf.data.length)⟩ else s

/-- Drop a prefix that is known to be present (Go slice `s[len(pre):]`). -/
def goDropPre (s pre : String) : String := ⟨s.data.drop pre.data.length⟩

/-- `strings.Contains`. -/
def goContains (s sub : String) : Bool :=
  (List.range (s.data.length + 1)).any fun i => sub.data.isPrefixOf (s.data.drop i)

/-! ## models: Engine, Statistic, FilterType, category
(`pkg/models`, engines/statistics are Go string types) -/

/-- The seven valid engine strings (`models.Engine` constants). -/
def validEngines : List String :=
  ["aurora-postgresql", "aurora-mysql", "postgres", "mysql", "mariadb", "oracle", "sqlserver"]

/-- `models.NewEngine`: exact match for the first five engines, case-insensitive
substring match for oracle and sqlserver, `""` otherwise. -/
def NewEngine (engineString : String) : String :=
  if engineString = "aurora-postgresql" ∨ engineString = "aurora-mysql" ∨
     engineString = "postgres" ∨ engineString = "mysql" ∨ engineString = "mariadb" then
    engineString
  else if goContains (goToLower engineString) "oracle" then "oracle"
  else if goContains (goToLower engineString) "sqlserver" then "sqlserver"
  else ""

/-- `models.Engine.IsValid`. -/
def engineIsValid (engine : String) : Bool := validEngines.contains engine

/-- `models.GetAllStatistics` (as strings, in source order). -/
def GetAllStatistics : List String := ["avg", "min", "max", "sum"]

/-- `models.Statistic.IsValid`. -/
def statisticIsValid (s : String) : Bool := GetAllStatistics.contains s

/-- `models.NewStatistic`: identity on valid statistics, `""` otherwise. -/
def NewStatistic (statisticString : String) : String :=
  if statisticIsValid statisticString then statisticString else ""

/-- `models.DeriveMetricCategory`. -/
def DeriveMetricCategory (metricName : String) : String :=
  if goStartsWith metricName "os." then "os"
  else if goStartsWith metricName "db." then "db"
  else "other"

/-- `utils.EngineToShortName`. -/
def EngineToShortName (engine : String) : String :=
  if engine = "aurora-postgresql" then "apg"
  else if engine = "aurora-mysql" then "ams"
  else if engine = "postgres" then "pg"
  else if engine = "mysql" then "mysql"
  else if engine = "mariadb" then "mariadb"
  else if engine = "oracle" then "oracle"
  else if engine = "sqlserver" then "sqlserver"
  else ""

/-! ## string_utils.go -/

/-- Character class `[a-zA-Z0-9_:]` kept by `SnakeCase`. -/
def snakeAllowed (c : Char) : Bool :=
  ('a' ≤ c ∧ c ≤ 'z') ∨ ('A' ≤ c ∧ c ≤ 'Z') ∨ ('0' ≤ c ∧ c ≤ '9') ∨ c = '_' ∨ c = ':'

/-- `utils.SnakeCase`: replace `.` by `_`, delete characters outside
`[a-zA-Z0-9_:]`, lowercase. -/
def SnakeCase (input : String) : String :=
  ⟨(((input.data.map fun c => if c = '.' then '_' else c).filter snakeAllowed).map Char.toLower)⟩

/-- Claim-side restatement of the `snake` mapping from the spec, as a single
character-wise pass: a dot becomes an underscore, an allowed character is kept
lowercased, anything else is dropped. -/
def snakeSpec (input : String) : String :=
  ⟨input.data.filterMap fun c =>
    if c = '.' then some '_'
    else if snakeAllowed c then some c.toLower
    else none⟩

/-- Inner loop of `utils.BatchMetricNames`: slices of size `bs1 + 1` taken
greedily (`bs1 + 1` is the positive batch size). -/
def batchChunks (bs1 : Nat) (l : List String) : List (List String) :=
  if h : l = [] then []
  else l.take (bs1 + 1) :: batchChunks bs1 (l.drop (bs1 + 1))
termination_by l.length
decreasing_by
  simp only [List.length_drop]
  have : 0 < l.length := List.length_pos.mpr h
  omega

/-- `utils.BatchMetricNames`: empty input or non-positive batch size yields no
batches, otherwise consecutive slices of `batchSize` names. -/
def BatchMetricNames (metricNames : List String) (batchSize : Nat) : List (List String) :=
  if metricNames.length = 0 ∨ batchSize = 0 then []
  else batchChunks (batchSize - 1) metricNames

/-- `utils.isRegexPattern`: the pattern contains one of the regex
metacharacters `* + ? ^ $ { } ( ) | [ \ ]`. -/
def isRegexPattern (metricName : String) : Bool :=
  metricName.data.any fun c =>
    c ∈ ['*', '+', '?', '^', '$', '\x7b', '\x7d', '(', ')', '|', '[', '\\', ']']

/-! ## Model of the Go `regexp` library on the fragment the configs use

The repository compiles user-supplied patterns with `regexp.Compile` and tests
them with `MatchString` (unanchored substring search; `^`/`$` anchor to the
whole string).  The patterns exercised by the claims use only literals,
escaped literals (`\.`), the any-character dot, the Kleene star and the two
anchors, so the library is modelled on exactly that fragment: anything else
fails to compile (`none`), as does a trailing backslash, exactly like Go. -/

/-- One compiled regex item: a literal character, the any-character dot, or a
starred item. -/
inductive RItem where
  | lit (c : Char)
  | anyChar
  | star (base : RItem)
deriving DecidableEq

/-- A compiled pattern: optional `^` and `$` anchors around a list of items. -/
structure GoRegex where
  anchorStart : Bool
  anchorEnd : Bool
  items : List RItem
deriving DecidableEq

/-- Whether a single (non starred) item accepts a character. -/
def rItemAccepts : RItem → Char → Bool
  | .lit c, x => x = c
  | .anyChar, _ => true
  | .star _, _ => false

/-- The items match the character list exactly (consume all of it). -/
def rMatchExact : List RItem → List Char → Bool
  | [], s => s.isEmpty
  | .lit _ :: _, [] => false
  | .lit c :: items, x :: s => x = c && rMatchExact items s
  | .anyChar :: _, [] => false
  | .anyChar :: items, _ :: s => rMatchExact items s
  | .star b :: items, s =>
      (List.range (s.length + 1)).any fun k =>
        (s.take k).all (rItemAccepts b) && rMatchExact items (s.drop k)

/-- `Regexp.MatchString`: the pattern matches some substring, subject to the
anchors. -/
def goRegexMatches (r : GoRegex) (s : String) : Bool :=
  let cs := s.data
  let starts := if r.anchorStart then [0] else List.range (cs.length + 1)
  starts.any fun i =>
    let t := cs.drop i
    if r.anchorEnd then rMatchExact r.items t
    else (List.range (t.length + 1)).any fun j => rMatchExact r.items (t.take j)

/-- Regex metacharacters outside the supported fragment (compile failure in
the model; inner `^`/`$` are also rejected since the model only supports them
as outer anchors). -/
def unsupportedMeta (c : Char) : Bool :=
  c ∈ ['+', '?', '(', ')', '[', ']', '\x7b', '\x7d', '|', '^', '$']

/-- Parse the item list of a pattern body (anchors already stripped). -/
def parseRegexItems : List Char → Option (List RItem)
  | [] => some []
  | '\\' :: [] => none
  | '\\' :: c :: '*' :: rest => (parseRegexItems rest).map (RItem.star (.lit c) :: ·)
  | '\\' :: c :: rest => (parseRegexItems rest).map (RItem.lit c :: ·)
  | '*' :: _ => none
  | c :: '*' :: rest =>
      if unsupportedMeta c then none
      else (parseRegexItems rest).map
        (RItem.star (if c = '.' then .anyChar else .lit c) :: ·)
  | c :: rest =>
      if unsupportedMeta c then none
      else (parseRegexItems rest).map
        ((if c = '.' then RItem.anyChar else RItem.lit c) :: ·)

/-- `regexp.Compile` on the supported fragment: strip outer anchors, parse the
body; `none` models a compile error. -/
def compileGoRegex (pattern : String) : Option GoRegex :=
  let cs := pattern.data
  let (aS, cs1) := if cs.head? = some '^' then (true, cs.tail) else (false, cs)
  let (aE, cs2) := if cs1.getLast? = some '$' then (true, cs1.dropLast) else (false, cs1)
  (parseRegexItems cs2).map fun items => ⟨aS, aE, items⟩

/-- `regexp.Compile` + `MatchString` in one step: `none` is a compile error. -/
def goRegexMatchString (pattern s : String) : Option Bool :=
  (compileGoRegex pattern).map fun r => goRegexMatches r s

/-! ## pkg/filter: PatternFilter

A compiled regex is modelled as its `MatchString` function `String → Bool`
(the `Patterns` maps hold only successfully compiled, hence non-nil, regexes).
Go maps become association lists; map iteration visits every entry and the
boolean results below do not depend on iteration order. -/

/-- Go map lookup on an association list. -/
def lookupAssoc {α : Type} (l : List (String × α)) (k : String) : Option α :=
  (l.find? fun p => p.1 = k).map (·.2)

/-- `filter.Patterns`: field name → compiled regexes. -/
abbrev Patterns : Type := List (String × List (String → Bool))

/-- A `filter.Filterable` object: its field map and its tag map. -/
structure Filterable where
  fields : List (String × String)
  tags : List (String × String)

/-- `filter.PatternFilter`. -/
structure PatternFilter where
  IncludePatterns : Patterns
  ExcludePatterns : Patterns

/-- `filter.matchesPatterns`: the value matches at least one regex. -/
def matchesPatterns (value : String) (regexPatterns : List (String → Bool)) : Bool :=
  regexPatterns.any fun pattern => pattern value

/-- The key resolution shared by `matchesAnyField` and `matchesAllFields`:
field lookup first, then tag lookup for `tag.`-prefixed keys. -/
def resolveFilterValue (obj : Filterable) (filterKey : String) : Option String :=
  match lookupAssoc obj.fields filterKey with
  | some v => some v
  | none =>
      if goStartsWith filterKey "tag." then lookupAssoc obj.tags (goDropPre filterKey "tag.")
      else none

/-- `filter.PatternFilter.matchesAnyField` (OR over keys, used for exclude). -/
def matchesAnyField (obj : Filterable) (patterns : Patterns) : Bool :=
  patterns.any fun p =>
    match resolveFilterValue obj p.1 with
    | some v => matchesPatterns v p.2
    | none => false

/-- `filter.PatternFilter.matchesAllFields` (AND over keys, used for include). -/
def matchesAllFields (obj : Filterable) (patterns : Patterns) : Bool :=
  patterns.all fun p =>
    match resolveFilterValue obj p.1 with
    | some v => matchesPatterns v p.2
    | none => false

/-- `filter.PatternFilter.ShouldInclude`; `none` models a nil object. -/
def ShouldInclude (patternFilter : PatternFilter) (obj : Option Filterable) : Bool :=
  match obj with
  | none => false
  | some o =>
      if patternFilter.ExcludePatterns.length > 0 ∧ matchesAnyField o patternFilter.ExcludePatterns then
        false
      else if patternFilter.IncludePatterns.length > 0 then
        matchesAllFields o patternFilter.IncludePatterns
      else true

/-! ## pkg/utils/metric_utils.go: statistics selection

`models.FilterConfig` is the raw config map field → pattern strings; the
statistic-selection helpers compile patterns on the fly with
`regexp.Compile`, modelled by `goRegexMatchString`. -/

/-- `models.FilterConfig`. -/
abbrev FilterConfig : Type := List (String × List String)

/-- The parts of `models.ParsedMetricsConfig` used by statistic selection. -/
structure ParsedMetricsConfig where
  Statistic : String
  Include : FilterConfig
  Exclude : FilterConfig

/-- `utils.patternMatchesMetric`: exact equality, else regex match when the
pattern looks like a regex and compiles. -/
def patternMatchesMetric (pattern metricName : String) : Bool :=
  if pattern = metricName then true
  else if isRegexPattern pattern then (goRegexMatchString pattern metricName).getD false
  else false

/-- `utils.extractMetricAndStatistic`: splits a pattern into base pattern and
statistic suffix; the suffix test lowercases the pattern but the trim is done
on the original pattern. -/
def extractMetricAndStatistic (pattern : String) : String × String :=
  match GetAllStatistics.find? (fun statistic => goEndsWith (goToLower pattern) ("." ++ statistic)) with
  | some statistic => (goTrimSuffix pattern ("." ++ statistic), statistic)
  | none => ("", "")

/-- `utils.shouldExcludeMetric`: `name` patterns against the bare metric name,
`category` patterns against the derived category. -/
def shouldExcludeMetric (metricName : String) (metricConfig : ParsedMetricsConfig) : Bool :=
  if metricConfig.Exclude.length = 0 then false
  else
    (match lookupAssoc metricConfig.Exclude "name" with
     | some namePatterns => namePatterns.any fun pattern => patternMatchesMetric pattern metricName
     | none => false) ||
    (match lookupAssoc metricConfig.Exclude "category" with
     | some categoryPatterns =>
         categoryPatterns.any fun pattern => patternMatchesMetric pattern (DeriveMetricCategory metricName)
     | none => false)

/-- `utils.extractExplicitStatisticsFromInclude`: statistic suffixes of `name`
include patterns whose base pattern matches the metric. -/
def extractExplicitStatisticsFromInclude (metricName : String) (patterns : FilterConfig) : List String :=
  match lookupAssoc patterns "name" with
  | some namePatterns =>
      namePatterns.filterMap fun pattern =>
        let (basePattern, statisticStr) := extractMetricAndStatistic pattern
        if basePattern ≠ "" ∧ statisticStr ≠ "" then
          if patternMatchesMetric basePattern metricName then
            let stat := NewStatistic statisticStr
            if statisticIsValid stat then some stat else none
          else none
        else none
  | none => []

/-- `utils.matchesIncludePatterns`: statistic-suffixed `name` patterns are
skipped; plain `name` patterns match the bare name, `category` patterns the
derived category. -/
def matchesIncludePatterns (metricName : String) (patterns : FilterConfig) : Bool :=
  (match lookupAssoc patterns "name" with
   | some namePatterns =>
       namePatterns.any fun pattern =>
         if (extractMetricAndStatistic pattern).2 ≠ "" then false
         else patternMatchesMetric pattern metricName
   | none => false) ||
  (match lookupAssoc patterns "category" with
   | some categoryPatterns =>
       categoryPatterns.any fun pattern => patternMatchesMetric pattern (DeriveMetricCategory metricName)
   | none => false)

/-- Append with the `seenStatistics` deduplication of
`determineIncludedStatistics`. -/
def addStatIfNew (acc : List String) (stat : String) : List String :=
  if acc.contains stat then acc else acc ++ [stat]

/-- `utils.determineIncludedStatistics`: the default statistic first, then the
deduplicated explicit suffix statistics, then (when a plain include pattern
matches) the default again if still unseen. -/
def determineIncludedStatistics (metricName : String) (metricConfig : ParsedMetricsConfig) : List String :=
  let statistics := [metricConfig.Statistic]
  if metricConfig.Include.length = 0 then statistics
  else
    let explicitStats := extractExplicitStatisticsFromInclude metricName metricConfig.Include
    let statistics := explicitStats.foldl addStatIfNew statistics
    if matchesIncludePatterns metricName metricConfig.Include then
      addStatIfNew statistics metricConfig.Statistic
    else statistics

/-- `utils.getMetricStatistics`; `none` models a nil config. -/
def getMetricStatistics (metricName : String) (metricConfig : Option ParsedMetricsConfig) : List String :=
  match metricConfig with
  | none => ["avg"]
  | some config =>
      if shouldExcludeMetric metricName config then []
      else determineIncludedStatistics metricName config

/-! ## pkg/processing/formatting: Prometheus metric names -/

/-- `formatting.buildPrometheusMetricName`: `db.`-prefixed metrics get the
engine short token inserted after the configured prefix. -/
def buildPrometheusMetricName (metricPre engineShortStr metricWithStatistic : String) : String :=
  let metricPre :=
    if goStartsWith metricWithStatistic "db." then metricPre ++ "_" ++ engineShortStr
    else metricPre
  metricPre ++ "_" ++ SnakeCase metricWithStatistic

/-! ## pkg/utils: WithRetry (capped variant, the current revision)

The operation is modelled as a function from the attempt index to its result;
context cancellation is a predicate saying whether the context is done during
the sleep that follows a given attempt.  The run is summarised by its outcome,
the number of invocations of the operation, and the list of completed sleep
durations (a cancelled sleep completes no sleep and triggers no further
invocation). -/

/-- Outcome of a `WithRetry` run: success, the operation's error after
exhausting the attempts, or the context's error. -/
inductive RetryOutcome (E T : Type) where
  | ok (t : T)
  | err (e : E)
  | ctxErr
deriving DecidableEq

/-- Result summary of a `WithRetry` run. -/
structure RetryRun (E T : Type) where
  outcome : RetryOutcome E T
  calls : Nat
  sleeps : List Nat
deriving DecidableEq

/-- The delay before the retry that follows failed attempt `attempt`:
`baseDelay * min(1 << attempt, 5)`. -/
def retryDelay (baseDelay attempt : Nat) : Nat := baseDelay * min (2 ^ attempt) 5

/-- The loop of `utils.WithRetry`, indexed by the current attempt and the
number of attempts still allowed after it. -/
def withRetryGo {E T : Type} (op : Nat → Except E T) (cancelled : Nat → Bool)
    (baseDelay : Nat) : Nat → Nat → RetryRun E T
  | attempt, 0 =>
      match op attempt with
      | .ok t => ⟨.ok t, 1, []⟩
      | .error e => ⟨.err e, 1, []⟩
  | attempt, remaining + 1 =>
      match op attempt with
      | .ok t => ⟨.ok t, 1, []⟩
      | .error _ =>
          if cancelled attempt then ⟨.ctxErr, 1, []⟩
          else
            let rest := withRetryGo op cancelled baseDelay (attempt + 1) remaining
            ⟨rest.outcome, rest.calls + 1, retryDelay baseDelay attempt :: rest.sleeps⟩

/-- `utils.WithRetry` (capped variant): up to `maxRetries + 1` invocations. -/
def WithRetry {E T : Type} (op : Nat → Except E T) (cancelled : Nat → Bool)
    (maxRetries baseDelay : Nat) : RetryRun E T :=
  withRetryGo op cancelled baseDelay 0 maxRetries

/-! ## pkg/utils/metric_utils.go: canonical description registries

`MetricDescriptionRegistry.descriptions` and
`PerEngineMetricRegistry.registries` are Go maps guarded by mutexes; they are
modelled as association lists threaded through the calls (each call holds the
lock for its whole body, so the sequential model covers every interleaving of
registry operations). -/

/-- A `MetricDescriptionRegistry`: lowercased metric name → description. -/
abbrev DescRegistry : Type := List (String × String)

/-- A `PerEngineMetricRegistry`: engine → description registry. -/
abbrev EngineRegistries : Type := List (String × DescRegistry)

/-- `MetricDescriptionRegistry.GetCanonicalDescription`: return the stored
description for the lowercased name, else store and return the argument. -/
def GetCanonicalDescription (reg : DescRegistry) (metricName awsDescription : String) :
    String × DescRegistry :=
  let normalizedMetricName := goToLower metricName
  match lookupAssoc reg normalizedMetricName with
  | some canonical => (canonical, reg)
  | none => (awsDescription, reg ++ [(normalizedMetricName, awsDescription)])

/-- `PerEngineMetricRegistry.GetEngineRegistry` (lookup half): the engine's
registry, empty when none exists yet. -/
def GetEngineRegistry (per : EngineRegistries) (engine : String) : DescRegistry :=
  (lookupAssoc per engine).getD []

/-- Store an engine's registry back (map assignment in `GetEngineRegistry`). -/
def SetEngineRegistry (per : EngineRegistries) (engine : String) (reg : DescRegistry) :
    EngineRegistries :=
  if (lookupAssoc per engine).isSome then
    per.map fun p => if p.1 = engine then (engine, reg) else p
  else per ++ [(engine, reg)]

/-- One canonical-description call against the per-engine registry, as done by
`BuildMetricDefinitionMap`: fetch the engine registry, resolve the
description, store the registry back. -/
def RecordDescription (per : EngineRegistries) (engine metricName awsDescription : String) :
    String × EngineRegistries :=
  let reg := GetEngineRegistry per engine
  let (canonical, reg2) := GetCanonicalDescription reg metricName awsDescription
  (canonical, SetEngineRegistry per engine reg2)

/-- Run a sequence of `(engine, name, description)` recordings. -/
def RunRegistryCalls (per : EngineRegistries) : List (String × String × String) → EngineRegistries
  | [] => per
  | c :: cs => RunRegistryCalls (RecordDescription per c.1 c.2.1 c.2.2).2 cs

/-- Spec-side: the description of the first call under the engine whose
lowercased name has the given key (empty or not). -/
def firstDescFor (calls : List (String × String × String)) (engine key : String) : Option String :=
  (calls.find? fun c => c.1 = engine ∧ goToLower c.2.1 = key).map (·.2.2)

/-- Spec-side, the claim's words: the first non-empty description ever
recorded under the key. -/
def firstNonEmptyDescFor (calls : List (String × String × String)) (engine key : String) :
    Option String :=
  (calls.find? fun c => c.1 = engine ∧ goToLower c.2.1 = key ∧ c.2.2 ≠ "").map (·.2.2)

/-! ## pkg/utils/config_utils.go: concurrency parsing -/

/-- `utils.MaximumConcurrency`. -/
def MaximumConcurrency : Int := 60

/-- `utils.DefaultConcurrency`. -/
def DefaultConcurrency : Int := 4

/-- `utils.GetOrDefault` (logging dropped). -/
def GetOrDefault (value lo hi defaultValue : Int) : Int :=
  if value < lo ∨ value > hi then defaultValue else value

/-- `utils.parseProcessingConfig`: the concurrency clamp as written, with
upper bound `DefaultConcurrency`. -/
def parseProcessingConfig (concurrency : Int) : Int :=
  GetOrDefault concurrency 1 DefaultConcurrency DefaultConcurrency

/-! ## pkg/manager/instance: RDSInstanceManager

Raw AWS records carry optional pointer fields (`Option`); timestamps are
naturals with `0` playing the role of the zero `time.Time`.  The
`DescribeDBInstancesPaginator` call under retry is modelled by its outcome, an
`Except` of the record list. -/

/-- A raw `types.DBInstance` as consumed by `safeExtractInstanceFields`. -/
structure DBInstanceRecord where
  Engine : Option String
  DBInstanceStatus : Option String
  PerformanceInsightsEnabled : Option Bool
  DbiResourceId : Option String
  DBInstanceIdentifier : Option String
  InstanceCreateTime : Option Nat
deriving DecidableEq

/-- `instance.SafeInstanceFields`. -/
structure SafeInstanceFields where
  Engine : String
  DBInstanceStatus : String
  PerformanceInsightsEnabled : Bool
  DbiResourceId : String
  DBInstanceIdentifier : String
  InstanceCreateTime : Nat
deriving DecidableEq

/-- `models.Instance` (the metrics cache pointer is omitted: it is not
consulted by discovery or by the claimed invariants). -/
structure Instance where
  ResourceID : String
  Identifier : String
  Engine : String
  CreationTime : Nat
deriving DecidableEq

/-- The zero value of `models.Instance` (a declared-but-unassigned Go struct). -/
def emptyInstance : Instance := ⟨"", "", "", 0⟩

/-- `instance.safeExtractInstanceFields`: all pointer fields except the PI
flag must be present, the creation time must be non-zero; a missing PI flag
defaults to false.  `none` models the error return. -/
def safeExtractInstanceFields (record : DBInstanceRecord) : Option SafeInstanceFields :=
  match record.Engine, record.DBInstanceStatus, record.DbiResourceId,
        record.DBInstanceIdentifier, record.InstanceCreateTime with
  | some engine, some status, some resourceId, some identifier, some createTime =>
      if createTime = 0 then none
      else some ⟨engine, status, record.PerformanceInsightsEnabled.getD false,
                 resourceId, identifier, createTime⟩
  | _, _, _, _, _ => none

/-- `models.Instance.GetFilterableFields` / `GetFilterableTags` packaged as a
`Filterable` (the shipped code exposes no instance tags). -/
def instanceFilterable (inst : Instance) : Filterable :=
  ⟨[("identifier", inst.Identifier), ("engine", inst.Engine)], []⟩

/-- `models.ParsedInstancesConfig.ShouldIncludeInstance`: nil filter includes
everything. -/
def ShouldIncludeInstance (filt : Option PatternFilter) (inst : Instance) : Bool :=
  match filt with
  | none => true
  | some f => ShouldInclude f (some (instanceFilterable inst))

/-- The instance a record gives rise to in `discoverInstances`: populated only
when the record is PI-enabled with a recognised engine, the Go zero value
otherwise. -/
def builtInstance (fields : SafeInstanceFields) : Instance :=
  if fields.PerformanceInsightsEnabled ∧ NewEngine fields.Engine ≠ "" then
    ⟨fields.DbiResourceId, fields.DBInstanceIdentifier, NewEngine fields.Engine,
      fields.InstanceCreateTime⟩
  else emptyInstance

/-- The record loop of `instance.discoverInstances`: skip on extraction error,
build the instance only for PI-enabled records with a recognised engine, then
apply the instance filter and the defensive emptiness checks. -/
def discoverLoop (filt : Option PatternFilter) : List DBInstanceRecord → List Instance
  | [] => []
  | record :: rest =>
      match safeExtractInstanceFields record with
      | none => discoverLoop filt rest
      | some fields =>
          if ¬ ShouldIncludeInstance filt (builtInstance fields) then discoverLoop filt rest
          else if (builtInstance fields).ResourceID = "" ∨ (builtInstance fields).Identifier = "" then
            discoverLoop filt rest
          else builtInstance fields :: discoverLoop filt rest

/-- Insertion step of the creation-time sort (`sort.Slice` with
`CreationTime.Before`). -/
def insertByCreation (x : Instance) : List Instance → List Instance
  | [] => [x]
  | y :: ys => if x.CreationTime < y.CreationTime then x :: y :: ys else y :: insertByCreation x ys

/-- The creation-time sort of `discoverInstances` (ascending, oldest first). -/
def sortByCreation : List Instance → List Instance
  | [] => []
  | x :: xs => insertByCreation x (sortByCreation xs)

/-- `instance.discoverInstances` past the paginator call: extract, filter,
sort ascending by creation time. -/
def discoverInstances (filt : Option PatternFilter) (records : List DBInstanceRecord) :
    List Instance :=
  sortByCreation (discoverLoop filt records)

/-- The cache fields of `RDSInstanceManager`: the instance slice (nil = `none`)
and the last-updated stamp (`0` = zero `time.Time`). -/
structure InstMgrState where
  Instances : Option (List Instance)
  InstancesLastUpdated : Nat
deriving DecidableEq

/-- The refresh condition of `GetInstances`: nil cache, never updated, or
`now` past `lastUpdated + InstanceTTL`. -/
def needsRefresh (st : InstMgrState) (now ttl : Nat) : Bool :=
  st.Instances = none ∨ st.InstancesLastUpdated = 0 ∨ st.InstancesLastUpdated + ttl < now

/-- `RDSInstanceManager.GetInstances`: refresh when stale — on discovery error
return it leaving the cache untouched, otherwise truncate to `maxInstances`
and install; serve the cache otherwise.  `fetch` is the retried
`DescribeDBInstancesPaginator` outcome. -/
def GetInstances (fetch : Except String (List DBInstanceRecord)) (filt : Option PatternFilter)
    (maxInstances ttl now : Nat) (st : InstMgrState) :
    Except String (List Instance) × InstMgrState :=
  if needsRefresh st now ttl then
    match fetch with
    | .error e => (.error e, st)
    | .ok records =>
        let instances := discoverInstances filt records
        let kept := if instances.length > maxInstances then instances.take maxInstances else instances
        (.ok kept, ⟨some kept, now⟩)
  else (.ok (st.Instances.getD []), st)

/-! ## pkg/manager/region: SingleRegionManager

The scheduler's nondeterministic worker pool is serialised: the catalog
fan-out writes its results at the instance's index (deterministic in the
code), and the producer/worker pipeline is replayed in producer order — the
set of processed batches, the emitted samples per batch and the recorded
error set are exactly those of the concurrent code, at one of its admissible
recording orders. -/

/-- `region.instanceBatches`. -/
structure InstanceBatches (I E : Type) where
  inst : I
  batches : List (List String)
  err : Option E

/-- `SingleRegionManager.fetchMetricBatchesInParallel`: one
`GetMetricBatches` result per instance, in instance order. -/
def fetchMetricBatchesInParallel {I E : Type} (getMetricBatches : I → Except E (List (List String)))
    (instances : List I) : List (InstanceBatches I E) :=
  instances.map fun i =>
    match getMetricBatches i with
    | .ok batches => ⟨i, batches, none⟩
    | .error e => ⟨i, [], some e⟩

/-- The producer/worker pipeline of `collectMetricsWithQueue`: catalog errors
are recorded and skip the instance; every batch of a successful catalog result
is processed with `CollectMetricsForBatch` (modelled by its emitted samples
and optional error), and batch errors are recorded without stopping
siblings.  Returns (emitted samples, recorded errors). -/
def drainQueue {I E S : Type} (collectBatch : I → List String → List S × Option E) :
    List (InstanceBatches I E) → List S × List E
  | [] => ([], [])
  | r :: rest =>
      match r.err with
      | some e =>
          let (samples, errs) := drainQueue collectBatch rest
          (samples, e :: errs)
      | none =>
          let here := r.batches.map fun batch => collectBatch r.inst batch
          let (samples, errs) := drainQueue collectBatch rest
          ((here.map (·.1)).flatten ++ samples, (here.filterMap (·.2)) ++ errs)

/-- `SingleRegionManager.collectMetricsWithQueue`: run the pipeline and return
the emitted samples together with the first recorded error, if any. -/
def collectMetricsWithQueue {I E S : Type} (collectBatch : I → List String → List S × Option E)
    (batchResults : List (InstanceBatches I E)) : List S × Option E :=
  let (samples, errs) := drainQueue collectBatch batchResults
  (samples, errs.head?)

/-- `SingleRegionManager.CollectMetrics`: instance discovery, catalog fan-out,
queue drain.  A discovery error aborts the scrape; otherwise the emitted
samples and the representative error are returned. -/
def CollectMetrics {I E S : Type} (getInstances : Except E (List I))
    (getMetricBatches : I → Except E (List (List String)))
    (collectBatch : I → List String → List S × Option E) :
    Except E (List S × Option E) :=
  match getInstances with
  | .error e => .error e
  | .ok instances =>
      .ok (collectMetricsWithQueue collectBatch (fetchMetricBatchesInParallel getMetricBatches instances))

/-! ## Derived predicates used by the claims -/

/-- The element invariant of the discovered instance list. -/
def validInstance (inst : Instance) : Prop :=
  inst.ResourceID ≠ "" ∧ inst.Identifier ≠ "" ∧ engineIsValid inst.Engine = true

/-- Ascending creation times: each element at most the next. -/
def sortedByCreation (l : List Instance) : Prop :=
  l.Chain' fun a b => a.CreationTime ≤ b.CreationTime

/-- The full invariant claimed for `GetInstances` results. -/
def goodInstanceList (maxInstances : Nat) (l : List Instance) : Prop :=
  (∀ inst ∈ l, validInstance inst) ∧ sortedByCreation l ∧ l.length ≤ maxInstances

/-! # Theorems -/

/-- **C9.** The parsed `discovery.processing.concurrency` is *not* clamped to
`[1, 60]`: `parseProcessingConfig` passes `DefaultConcurrency` (4), not
`MaximumConcurrency` (60), as the upper bound of `GetOrDefault`, so the
configured value 30 — inside `[1, 60]` and recommended by the repository's
README — is silently replaced by the default 4. -/
theorem c9_concurrency_clamp_eval :
    parseProcessingConfig 30 = 4 ∧
    (1 : Int) ≤ 30 ∧ (30 : Int) ≤ MaximumConcurrency ∧
    parseProcessingConfig 30 ≠ 30 ∧
    DefaultConcurrency = 4 := by
  decide

/-- **C3.** The statistic-aware include selector does not fire on the spec's
pattern `^db\.SQL\..*\.max$`: the trailing `$` defeats the `.max` suffix test
in `extractMetricAndStatistic`, the pattern (matched against the bare metric
name `db.SQL.queries`) matches nothing, and the emitted statistics are `{avg}`
only — so `dbi_ams_db_sql_queries_avg` is produced but
`dbi_ams_db_sql_queries_max` is not. -/
theorem c3_statistic_aware_selector_eval :
    getMetricStatistics "db.SQL.queries"
        (some ⟨"avg", [("name", ["^db\\.SQL\\..*\\.max$"])], []⟩) = ["avg"] ∧
    extractMetricAndStatistic "^db\\.SQL\\..*\\.max$" = ("", "") ∧
    buildPrometheusMetricName "dbi" (EngineToShortName "aurora-mysql") "db.SQL.queries.avg" =
      "dbi_ams_db_sql_queries_avg" := by
  decide

/-- The three passes of `SnakeCase` fuse into the single claim-side pass. -/
theorem snakeCase_eq_snakeSpec (s : String) : SnakeCase s = snakeSpec s := by
  unfold SnakeCase snakeSpec
  have h : ∀ l : List Char,
      ((l.map fun c => if c = '.' then '_' else c).filter snakeAllowed).map Char.toLower =
        l.filterMap fun c =>
          if c = '.' then some '_' else if snakeAllowed c then some c.toLower else none := by
    intro l
    induction l with
    | nil => rfl
    | cons c t ih =>
        by_cases hdot : c = '.'
        · subst hdot
          simpa [List.filterMap_cons, snakeAllowed] using ih
        · by_cases hall : snakeAllowed c
          · simp [List.filterMap_cons, hdot, hall, ih]
          · simp [List.filterMap_cons, hdot, hall, ih]
  exact congrArg String.mk (h s.data)

/-- **C4.** Prometheus naming contract of `buildPrometheusMetricName`: a
`db.`-prefixed metric-with-statistic name is exported as
`prefix_shortEngine_snake(name)`, any other name as `prefix_snake(name)`,
where `snake` replaces dots with underscores, drops characters outside
`[A-Za-z0-9_:]` and lowercases (stated against the claim-side `snakeSpec`). -/
theorem c4_prometheus_naming_contract (metricPre engineShortStr nameWithStat : String) :
    (goStartsWith nameWithStat "db." = true →
      buildPrometheusMetricName metricPre engineShortStr nameWithStat =
        metricPre ++ "_" ++ engineShortStr ++ "_" ++ snakeSpec nameWithStat) ∧
    (goStartsWith nameWithStat "db." = false →
      buildPrometheusMetricName metricPre engineShortStr nameWithStat =
        metricPre ++ "_" ++ snakeSpec nameWithStat) := by
  unfold buildPrometheusMetricName
  rw [snakeCase_eq_snakeSpec]
  constructor
  · intro h; rw [h]; simp
  · intro h; rw [h]; simp

/-- **C4 witness.** The contract at the spec's two examples: a `db.` metric on
aurora-mysql and an `os.` metric. -/
theorem c4_prometheus_naming_contract_witness :
    buildPrometheusMetricName "dbi" "ams" "db.Cache.Innodb_buffer_pool_read_requests.avg" =
      "dbi_ams_db_cache_innodb_buffer_pool_read_requests_avg" ∧
    buildPrometheusMetricName "dbi" "apg" "os.cpuUtilization.user.avg" =
      "dbi_os_cpuutilization_user_avg" := by
  constructor
  · exact ((c4_prometheus_naming_contract "dbi" "ams"
      "db.Cache.Innodb_buffer_pool_read_requests.avg").1 (by decide)).trans (by decide)
  · exact ((c4_prometheus_naming_contract "dbi" "apg"
      "os.cpuUtilization.user.avg").2 (by decide)).trans (by decide)

/-- `getLast?` skips the head of a cons with a nonempty tail. -/
theorem getLast_opt_cons {α : Type} (a : α) {l : List α} (h : l ≠ []) :
    (a :: l).getLast? = l.getLast? := by
  cases l with
  | nil => exact absurd rfl h
  | cons b t => simp

/-- The chunks concatenate back to the input list. -/
theorem batchChunks_flatten (bs1 : Nat) :
    ∀ n l, List.length l ≤ n → (batchChunks bs1 l).flatten = l := by
  intro n
  induction n with
  | zero =>
      intro l h
      have hl : l = [] := List.length_eq_zero.mp (Nat.le_zero.mp h)
      subst hl; rw [batchChunks]; simp
  | succ n ih =>
      intro l h
      rw [batchChunks]
      split
      · simp [*]
      · rename_i hne
        have hpos : 0 < l.length := List.length_pos.mpr hne
        have hdrop : (l.drop (bs1 + 1)).length ≤ n := by
          simp only [List.length_drop]; omega
        simp only [List.flatten_cons, ih _ hdrop, List.take_append_drop]

/-- The number of chunks is the length divided by the batch size, rounded up. -/
theorem batchChunks_length (bs1 : Nat) :
    ∀ n l, List.length l ≤ n → (batchChunks bs1 l).length = (l.length + bs1) / (bs1 + 1) := by
  intro n
  induction n with
  | zero =>
      intro l h
      have hl : l = [] := List.length_eq_zero.mp (Nat.le_zero.mp h)
      subst hl; rw [batchChunks]
      simp [Nat.div_eq_of_lt (by omega : bs1 < bs1 + 1)]
  | succ n ih =>
      intro l h
      rw [batchChunks]
      split
      · rename_i hl
        subst hl; simp [Nat.div_eq_of_lt (by omega : bs1 < bs1 + 1)]
      · rename_i hne
        have hpos : 0 < l.length := List.length_pos.mpr hne
        have hdrop : (l.drop (bs1 + 1)).length ≤ n := by
          simp only [List.length_drop]; omega
        simp only [List.length_cons, ih _ hdrop, List.length_drop]
        rcases Nat.lt_or_ge l.length (bs1 + 1) with hlt | hge
        · have h1 : l.length - (bs1 + 1) = 0 := by omega
          rw [h1]
          have h2 : (0 + bs1) / (bs1 + 1) = 0 := Nat.div_eq_of_lt (by omega)
          have h3 : (l.length + bs1) / (bs1 + 1) = 1 := by
            rw [Nat.div_eq_of_lt_le] <;> omega
          omega
        · have h1 : l.length + bs1 = (l.length - (bs1 + 1) + bs1) + (bs1 + 1) := by omega
          rw [h1, Nat.add_div_right _ (by omega : 0 < bs1 + 1)]

/-- Every chunk except possibly the last is full. -/
theorem batchChunks_dropLast_full (bs1 : Nat) :
    ∀ n l, List.length l ≤ n → ∀ b ∈ (batchChunks bs1 l).dropLast, b.length = bs1 + 1 := by
  intro n
  induction n with
  | zero =>
      intro l h
      have hl : l = [] := List.length_eq_zero.mp (Nat.le_zero.mp h)
      subst hl; rw [batchChunks]; simp
  | succ n ih =>
      intro l h b hb
      rw [batchChunks] at hb
      split at hb
      · simp at hb
      · rename_i hne
        have hpos : 0 < l.length := List.length_pos.mpr hne
        have hdrop : (l.drop (bs1 + 1)).length ≤ n := by
          simp only [List.length_drop]; omega
        by_cases hrest : l.drop (bs1 + 1) = []
        · rw [hrest, batchChunks] at hb
          simp at hb
        · have hrc : batchChunks bs1 (l.drop (bs1 + 1)) ≠ [] := by
            rw [batchChunks]; simp [hrest]
          rw [List.dropLast_cons_of_ne_nil hrc] at hb
          rcases List.mem_cons.mp hb with hb1 | hb2
          · subst hb1
            have hlen : bs1 + 1 ≤ l.length := by
              by_contra hc
              exact hrest (List.drop_eq_nil_of_le (by omega))
            simp [List.length_take, Nat.min_eq_left hlen]
          · exact ih _ hdrop b hb2

/-- The last chunk holds the remainder (or a full batch when the size divides
the length). -/
theorem batchChunks_getLast (bs1 : Nat) :
    ∀ n l, List.length l ≤ n → 0 < List.length l →
      ∀ b, (batchChunks bs1 l).getLast? = some b →
        b.length = if l.length % (bs1 + 1) = 0 then bs1 + 1 else l.length % (bs1 + 1) := by
  intro n
  induction n with
  | zero =>
      intro l h hpos
      omega
  | succ n ih =>
      intro l h hpos b hb
      rw [batchChunks] at hb
      split at hb
      · rename_i hl; subst hl; simp at hpos
      · rename_i hne
        have hdrop : (l.drop (bs1 + 1)).length ≤ n := by
          simp only [List.length_drop]; omega
        by_cases hrest : l.drop (bs1 + 1) = []
        · rw [hrest, batchChunks] at hb
          simp at hb
          have hle : l.length ≤ bs1 + 1 := by
            have := List.drop_eq_nil_iff.mp hrest
            omega
          have htake : l.take (bs1 + 1) = l := List.take_of_length_le hle
          rcases Nat.lt_or_ge l.length (bs1 + 1) with hlt | hge
          · have hmod : l.length % (bs1 + 1) = l.length := Nat.mod_eq_of_lt hlt
            rw [← hb, htake, hmod]
            have : l.length ≠ 0 := by omega
            simp [this]
          · have hlen : l.length = bs1 + 1 := by omega
            have hmod : l.length % (bs1 + 1) = 0 := by rw [hlen]; simp
            rw [← hb, htake, hmod, hlen]; simp
        · have hrc : batchChunks bs1 (l.drop (bs1 + 1)) ≠ [] := by
            rw [batchChunks]; simp [hrest]
          rw [getLast_opt_cons _ hrc] at hb
          have hdpos : 0 < (l.drop (bs1 + 1)).length := List.length_pos.mpr hrest
          have hlen : bs1 + 1 ≤ l.length := by
            by_contra hc
            exact hrest (List.drop_eq_nil_of_le (by omega))
          have hmod : l.length % (bs1 + 1) = (l.length - (bs1 + 1)) % (bs1 + 1) := by
            rw [Nat.mod_eq_sub_mod hlen]
          rw [hmod]
          have := ih _ hdrop hdpos b hb
          simpa [List.length_drop] using this

/-- **C6.** `BatchMetricNames` with batch size 15 partitions the metric list:
the batches concatenate back to the input, there are `⌈n/15⌉` of them, every
batch except possibly the last holds exactly 15 names, the last holds
`n mod 15` names (or 15 when 15 divides `n`), and the empty list yields no
batches. -/
theorem c6_batch_partition (m : List String) :
    (BatchMetricNames m 15).flatten = m ∧
    (BatchMetricNames m 15).length = (m.length + 14) / 15 ∧
    (∀ b ∈ (BatchMetricNames m 15).dropLast, b.length = 15) ∧
    (∀ b, (BatchMetricNames m 15).getLast? = some b →
      b.length = if m.length % 15 = 0 then 15 else m.length % 15) ∧
    (m = [] → BatchMetricNames m 15 = []) := by
  unfold BatchMetricNames
  by_cases hm : m.length = 0
  · have : m = [] := List.length_eq_zero.mp hm
    subst this; simp
  · simp only [hm, false_or, if_neg (by omega : ¬ (m.length = 0 ∨ (15 : Nat) = 0))]
    refine ⟨batchChunks_flatten 14 m.length m le_rfl, ?_, ?_, ?_, ?_⟩
    · exact batchChunks_length 14 m.length m le_rfl
    · exact batchChunks_dropLast_full 14 m.length m le_rfl
    · exact batchChunks_getLast 14 m.length m le_rfl (by omega)
    · intro h; subst h; simp at hm

/-- **C6 witness.** The partition at a concrete 33-name list: three batches of
sizes 15, 15, 3. -/
theorem c6_batch_partition_witness :
    (BatchMetricNames ((List.range 33).map toString) 15).flatten =
      (List.range 33).map toString ∧
    (BatchMetricNames ((List.range 33).map toString) 15).length = 3 := by
  refine ⟨(c6_batch_partition ((List.range 33).map toString)).1, ?_⟩
  rw [(c6_batch_partition ((List.range 33).map toString)).2.1]
  simp

/-- When every attempt from `attempt` on fails and the context is never
cancelled, the loop performs all remaining attempts and sleeps the capped
exponential delays. -/
theorem withRetryGo_all_fail {E T : Type} (op : Nat → Except E T) (cancelled : Nat → Bool)
    (baseDelay : Nat) :
    ∀ remaining attempt,
      (∀ k, attempt ≤ k → k ≤ attempt + remaining → ∃ e, op k = .error e) →
      (∀ k, cancelled k = false) →
      (withRetryGo op cancelled baseDelay attempt remaining).calls = remaining + 1 ∧
      (withRetryGo op cancelled baseDelay attempt remaining).sleeps =
        ((List.range remaining).map fun k => retryDelay baseDelay (attempt + k)) ∧
      ∀ e, op (attempt + remaining) = .error e →
        (withRetryGo op cancelled baseDelay attempt remaining).outcome = .err e := by
  intro remaining
  induction remaining with
  | zero =>
      intro attempt hfail _
      obtain ⟨e, he⟩ := hfail attempt le_rfl (by omega)
      refine ⟨by simp [withRetryGo, he], by simp [withRetryGo, he], ?_⟩
      intro e2 he2
      simp only [Nat.add_zero] at he2
      rw [he] at he2
      injection he2 with h
      subst h
      simp [withRetryGo, he]
  | succ remaining ih =>
      intro attempt hfail hcancel
      obtain ⟨e, he⟩ := hfail attempt le_rfl (by omega)
      have hrec := ih (attempt + 1)
        (fun k hk1 hk2 => hfail k (by omega) (by omega)) hcancel
      constructor
      · simp [withRetryGo, he, hcancel, hrec.1]
      constructor
      · simp only [withRetryGo, he, hcancel, Bool.false_eq_true, if_false]
        rw [hrec.2.1, List.range_succ_eq_map, List.map_cons, List.map_map]
        refine List.cons_eq_cons.mpr ⟨by simp, ?_⟩
        apply List.map_congr_left
        intro k _
        simp only [Function.comp_apply]
        congr 1
        omega
      · intro e2 he2
        simp only [withRetryGo, he, hcancel, Bool.false_eq_true, if_false]
        exact hrec.2.2 e2 (by rw [← he2]; congr 1; omega)

/-- When an attempt in range is cancelled during its sleep and every attempt
up to it fails, the loop stops with the context error after that attempt. -/
theorem withRetryGo_cancelled {E T : Type} (op : Nat → Except E T) (cancelled : Nat → Bool)
    (baseDelay : Nat) :
    ∀ remaining attempt j, j < remaining →
      (∀ k, attempt ≤ k → k ≤ attempt + j → ∃ e, op k = .error e) →
      (∀ k, k < attempt + j → cancelled k = false) →
      cancelled (attempt + j) = true →
      (withRetryGo op cancelled baseDelay attempt remaining).outcome = .ctxErr ∧
      (withRetryGo op cancelled baseDelay attempt remaining).calls = j + 1 := by
  intro remaining
  induction remaining with
  | zero => intro attempt j hj; omega
  | succ remaining ih =>
      intro attempt j hj hfail hnc hc
      obtain ⟨e, he⟩ := hfail attempt le_rfl (by omega)
      cases j with
      | zero =>
          have hc0 : cancelled attempt = true := by simpa using hc
          constructor <;> simp [withRetryGo, he, hc0]
      | succ j =>
          have hc0 : cancelled attempt = false := hnc attempt (by omega)
          have hrec := ih (attempt + 1) j (by omega)
            (fun k hk1 hk2 => hfail k (by omega) (by omega))
            (fun k hk => hnc k (by omega))
            (by rw [← hc]; congr 1; omega)
          constructor
          · simp [withRetryGo, he, hc0, hrec.1]
          · simp [withRetryGo, he, hc0, hrec.2]

/-- **C7.** `WithRetry` behavior: (a) when every attempt fails and the context
stays live, the operation is invoked exactly `maxRetries + 1` times, the final
error is returned, and the sleep before the retry that follows failed attempt
`k` is `baseDelay * min(2^k, 5)` — the sequence `d*(1,2,4,5,5,...)`; (b) when
the first attempt succeeds the operation is invoked exactly once with no
sleeps; (c) when the context is cancelled during the sleep after failed
attempt `j < maxRetries + 1`, the context error is returned after exactly
`j + 1` invocations. -/
theorem c7_retry_behavior {E T : Type} (op : Nat → Except E T) (cancelled : Nat → Bool)
    (maxRetries baseDelay : Nat) :
    ((∀ k, k ≤ maxRetries → ∃ e, op k = .error e) → (∀ k, cancelled k = false) →
      (WithRetry op cancelled maxRetries baseDelay).calls = maxRetries + 1 ∧
      (WithRetry op cancelled maxRetries baseDelay).sleeps =
        ((List.range maxRetries).map fun k => baseDelay * min (2 ^ k) 5) ∧
      ∀ e, op maxRetries = .error e →
        (WithRetry op cancelled maxRetries baseDelay).outcome = .err e) ∧
    (∀ t, op 0 = .ok t →
      (WithRetry op cancelled maxRetries baseDelay).calls = 1 ∧
      (WithRetry op cancelled maxRetries baseDelay).sleeps = [] ∧
      (WithRetry op cancelled maxRetries baseDelay).outcome = .ok t) ∧
    (∀ j, j < maxRetries →
      (∀ k, k ≤ j → ∃ e, op k = .error e) →
      (∀ k, k < j → cancelled k = false) →
      cancelled j = true →
      (WithRetry op cancelled maxRetries baseDelay).outcome = .ctxErr ∧
      (WithRetry op cancelled maxRetries baseDelay).calls = j + 1) := by
  refine ⟨?_, ?_, ?_⟩
  · intro hfail hcancel
    have h := withRetryGo_all_fail op cancelled baseDelay maxRetries 0
      (fun k hk1 hk2 => hfail k (by omega)) hcancel
    unfold WithRetry
    refine ⟨h.1, ?_, ?_⟩
    · rw [h.2.1]
      apply List.map_congr_left
      intro k _
      simp [retryDelay]
    · intro e he
      exact h.2.2 e (by simpa using he)
  · intro t ht
    cases maxRetries <;> simp [WithRetry, withRetryGo, ht]
  · intro j hj hfail hnc hc
    exact withRetryGo_cancelled op cancelled baseDelay maxRetries 0 j hj
      (fun k hk1 hk2 => hfail k (by omega)) (fun k hk => hnc k (by omega)) (by simpa using hc)

/-- **C7 witness.** The behavior at a concrete always-failing operation with
three retries and base delay 2: four calls and sleeps `[2, 4, 8]`; and at a
first-try success: one call.  The cancellation clause at a context cancelled
during the second sleep: two calls, context error. -/
theorem c7_retry_behavior_witness :
    (WithRetry (fun _ => (.error 0 : Except Nat Nat)) (fun _ => false) 3 2).calls = 4 ∧
    (WithRetry (fun _ => (.error 0 : Except Nat Nat)) (fun _ => false) 3 2).sleeps = [2, 4, 8] ∧
    (WithRetry (fun _ => (.ok 7 : Except Nat Nat)) (fun _ => false) 3 2).calls = 1 ∧
    (WithRetry (fun _ => (.error 0 : Except Nat Nat)) (fun k => k = 1) 3 2).outcome =
      RetryOutcome.ctxErr ∧
    (WithRetry (fun _ => (.error 0 : Except Nat Nat)) (fun k => k = 1) 3 2).calls = 2 := by
  have h1 := (c7_retry_behavior (fun _ => (.error 0 : Except Nat Nat)) (fun _ => false) 3 2).1
    (fun k _ => ⟨0, rfl⟩) (fun _ => rfl)
  have h2 := ((c7_retry_behavior (fun _ => (.ok 7 : Except Nat Nat)) (fun _ => false) 3 2).2.1
    7 rfl)
  have h3 := (c7_retry_behavior (fun _ => (.error 0 : Except Nat Nat)) (fun k => k = 1) 3 2).2.2
    1 (by omega) (fun k _ => ⟨0, rfl⟩)
    (fun k hk => by
      have hk0 : k = 0 := by omega
      subst hk0
      decide)
    (by decide)
  exact ⟨h1.1, h1.2.1.trans (by decide), h2.1, h3.1, h3.2⟩

/-- **C2.** Exclude precedence in the pattern filter: for every filter and
every non-nil object, if any exclude key resolves to a value (field lookup,
else `tag.`-prefixed tag lookup) that matches at least one regex of that key,
then `ShouldInclude` is false regardless of the include patterns; conversely
the exclude stage can only fire through a key that resolves to a matching
value, so a key that does not resolve never triggers an exclude. -/
theorem c2_exclude_precedence (f : PatternFilter) (o : Filterable) :
    (∀ key rxs v, (key, rxs) ∈ f.ExcludePatterns → resolveFilterValue o key = some v →
      matchesPatterns v rxs = true → ShouldInclude f (some o) = false) ∧
    (∀ pats : Patterns, matchesAnyField o pats = true →
      ∃ key rxs v, (key, rxs) ∈ pats ∧ resolveFilterValue o key = some v ∧
        matchesPatterns v rxs = true) := by
  constructor
  · intro key rxs v hmem hres hmatch
    have hany : matchesAnyField o f.ExcludePatterns = true := by
      unfold matchesAnyField
      rw [List.any_eq_true]
      refine ⟨(key, rxs), hmem, ?_⟩
      rw [hres]
      exact hmatch
    have hlen : f.ExcludePatterns.length > 0 := by
      cases hl : f.ExcludePatterns with
      | nil => rw [hl] at hmem; simp at hmem
      | cons a t => simp
    show (if f.ExcludePatterns.length > 0 ∧ matchesAnyField o f.ExcludePatterns = true then false
          else if f.IncludePatterns.length > 0 then matchesAllFields o f.IncludePatterns
          else true) = false
    rw [if_pos ⟨hlen, hany⟩]
  · intro pats hany
    unfold matchesAnyField at hany
    rw [List.any_eq_true] at hany
    obtain ⟨p, hmem, hp⟩ := hany
    cases hres : resolveFilterValue o p.1 with
    | none => rw [hres] at hp; simp at hp
    | some v =>
        rw [hres] at hp
        exact ⟨p.1, p.2, v, by simpa using hmem, hres, hp⟩

/-- **C2 witness.** The exclude rule `identifier` ~ `-temp$` (modelled by its
match function) rejects the instance `prod-analytics-temp` even though the
include rule `identifier` ~ `^prod-` accepts it. -/
theorem c2_exclude_precedence_witness :
    ShouldInclude
      ⟨[("identifier", [fun s => goStartsWith s "prod-"])],
       [("identifier", [fun s => goEndsWith s "-temp"])]⟩
      (some ⟨[("identifier", "prod-analytics-temp")], []⟩) = false := by
  exact (c2_exclude_precedence
      ⟨[("identifier", [fun s => goStartsWith s "prod-"])],
       [("identifier", [fun s => goEndsWith s "-temp"])]⟩
      ⟨[("identifier", "prod-analytics-temp")], []⟩).1
    "identifier" [fun s => goEndsWith s "-temp"] "prod-analytics-temp"
    (List.mem_singleton.mpr rfl) rfl (by decide)

/-- Lookup across an appended single binding. -/
theorem lookupAssoc_append {α : Type} (l : List (String × α)) (k k2 : String) (v : α) :
    lookupAssoc (l ++ [(k2, v)]) k =
      match lookupAssoc l k with
      | some w => some w
      | none => if k = k2 then some v else none := by
  induction l with
  | nil =>
      show lookupAssoc [(k2, v)] k = if k = k2 then some v else none
      unfold lookupAssoc
      simp only [List.find?_cons, List.find?_nil]
      by_cases h : k2 = k
      · subst h
        simp
      · have hk : ¬ (k = k2) := fun hc => h hc.symm
        simp [h, hk]
  | cons p t ih =>
      unfold lookupAssoc at ih ⊢
      simp only [List.cons_append, List.find?_cons]
      by_cases h : p.1 = k
      · simp [h]
      · simp only [h, decide_False]
        exact ih

/-- Updating an engine's binding in place: lookup of the updated engine. -/
theorem lookupAssoc_update_same (per : EngineRegistries) (e : String) (reg : DescRegistry) :
    lookupAssoc (per.map fun p => if p.1 = e then (e, reg) else p) e =
      if (lookupAssoc per e).isSome then some reg else none := by
  induction per with
  | nil => rfl
  | cons p t ih =>
      unfold lookupAssoc at ih ⊢
      by_cases hp : p.1 = e
      · have hd : decide (((e, reg) : String × DescRegistry).1 = e) = true :=
          decide_eq_true rfl
        have hd2 : decide (p.1 = e) = true := decide_eq_true hp
        simp only [List.map_cons, if_pos hp, List.find?_cons, hd, hd2]
        rfl
      · have hd : decide (p.1 = e) = false := decide_eq_false_iff_not.mpr hp
        simp only [List.map_cons, if_neg hp, List.find?_cons, hd]
        exact ih

/-- Updating one engine's binding leaves lookups of other engines unchanged. -/
theorem lookupAssoc_update_other (per : EngineRegistries) (e2 e : String) (reg : DescRegistry)
    (hne : e2 ≠ e) :
    lookupAssoc (per.map fun p => if p.1 = e2 then (e2, reg) else p) e = lookupAssoc per e := by
  induction per with
  | nil => rfl
  | cons p t ih =>
      unfold lookupAssoc at ih ⊢
      by_cases hp : p.1 = e2
      · have hpe : ¬ (p.1 = e) := by rw [hp]; exact hne
        have hd : decide (((e2, reg) : String × DescRegistry).1 = e) = false :=
          decide_eq_false_iff_not.mpr hne
        have hd2 : decide (p.1 = e) = false := decide_eq_false_iff_not.mpr hpe
        simp only [List.map_cons, if_pos hp, List.find?_cons, hd, hd2]
        exact ih
      · by_cases hpe : p.1 = e
        · have hd : decide (p.1 = e) = true := decide_eq_true hpe
          simp only [List.map_cons, if_neg hp, List.find?_cons, hd]
        · have hd : decide (p.1 = e) = false := decide_eq_false_iff_not.mpr hpe
          simp only [List.map_cons, if_neg hp, List.find?_cons, hd]
          exact ih

/-- Setting an engine's registry makes it the one subsequently fetched. -/
theorem getEngineRegistry_set_same (per : EngineRegistries) (e : String) (reg : DescRegistry) :
    GetEngineRegistry (SetEngineRegistry per e reg) e = reg := by
  unfold GetEngineRegistry SetEngineRegistry
  by_cases h : (lookupAssoc per e).isSome
  · rw [if_pos h, lookupAssoc_update_same, if_pos h]
    rfl
  · rw [if_neg h, lookupAssoc_append, Option.not_isSome_iff_eq_none.mp h]
    simp

/-- Setting one engine's registry leaves every other engine's registry
unchanged. -/
theorem getEngineRegistry_set_other (per : EngineRegistries) (e2 e : String) (reg : DescRegistry)
    (hne : e2 ≠ e) :
    GetEngineRegistry (SetEngineRegistry per e2 reg) e = GetEngineRegistry per e := by
  unfold GetEngineRegistry SetEngineRegistry
  by_cases h : (lookupAssoc per e2).isSome
  · rw [if_pos h, lookupAssoc_update_other per e2 e reg hne]
  · rw [if_neg h, lookupAssoc_append]
    have hke : ¬ (e = e2) := fun hc => hne hc.symm
    cases hl : lookupAssoc per e
    · simp [hke]
    · simp

/-- Reduction of `GetCanonicalDescription` when the key is already present. -/
theorem getCanonical_of_found (reg : DescRegistry) (n d d0 : String)
    (h : lookupAssoc reg (goToLower n) = some d0) :
    GetCanonicalDescription reg n d = (d0, reg) := by
  unfold GetCanonicalDescription
  simp only [h]

/-- Reduction of `GetCanonicalDescription` when the key is new. -/
theorem getCanonical_of_missing (reg : DescRegistry) (n d : String)
    (h : lookupAssoc reg (goToLower n) = none) :
    GetCanonicalDescription reg n d = (d, reg ++ [(goToLower n, d)]) := by
  unfold GetCanonicalDescription
  simp only [h]

/-- The description returned by one recording: the stored binding when the
key exists, else the argument. -/
theorem recordDescription_fst (per : EngineRegistries) (e n d : String) :
    (RecordDescription per e n d).1 =
      match lookupAssoc (GetEngineRegistry per e) (goToLower n) with
      | some c => c
      | none => d := by
  unfold RecordDescription
  cases hl : lookupAssoc (GetEngineRegistry per e) (goToLower n) with
  | some d0 => simp only [getCanonical_of_found _ _ _ _ hl]
  | none => simp only [getCanonical_of_missing _ _ _ hl]

/-- Unfolding of `firstDescFor` over a leading call. -/
theorem firstDescFor_cons (c : String × String × String) (cs : List (String × String × String))
    (e k : String) :
    firstDescFor (c :: cs) e k =
      if c.1 = e ∧ goToLower c.2.1 = k then some c.2.2 else firstDescFor cs e k := by
  unfold firstDescFor
  by_cases h : c.1 = e ∧ goToLower c.2.1 = k
  · have hd : decide (c.1 = e ∧ goToLower c.2.1 = k) = true := decide_eq_true h
    simp only [List.find?_cons, hd, if_pos h]
    rfl
  · have hd : decide (c.1 = e ∧ goToLower c.2.1 = k) = false := decide_eq_false_iff_not.mpr h
    simp only [List.find?_cons, hd, if_neg h]

/-- Master invariant of the per-engine registry: after running a call
sequence, a key's binding is its pre-existing binding if any, else the
description of the first call recording that key under that engine. -/
theorem runRegistryCalls_lookup (cs : List (String × String × String)) :
    ∀ (per : EngineRegistries) (e k : String),
      lookupAssoc (GetEngineRegistry (RunRegistryCalls per cs) e) k =
        match lookupAssoc (GetEngineRegistry per e) k with
        | some d => some d
        | none => firstDescFor cs e k := by
  induction cs with
  | nil =>
      intro per e k
      unfold RunRegistryCalls firstDescFor
      cases lookupAssoc (GetEngineRegistry per e) k <;> simp
  | cons c cs ih =>
      intro per e k
      obtain ⟨e2, n2, d2⟩ := c
      show lookupAssoc (GetEngineRegistry (RunRegistryCalls (RecordDescription per e2 n2 d2).2 cs) e) k = _
      rw [ih, firstDescFor_cons]
      by_cases he : e2 = e
      · subst he
        cases hl : lookupAssoc (GetEngineRegistry per e2) (goToLower n2) with
        | none =>
            have hrec : (RecordDescription per e2 n2 d2).2 =
                SetEngineRegistry per e2 (GetEngineRegistry per e2 ++ [(goToLower n2, d2)]) := by
              unfold RecordDescription
              simp only [getCanonical_of_missing _ _ _ hl]
            rw [hrec, getEngineRegistry_set_same, lookupAssoc_append]
            by_cases hk : k = goToLower n2
            · subst hk
              rw [hl]
              simp
            · have hk2 : ¬ (e2 = e2 ∧ goToLower n2 = k) := fun hc => hk hc.2.symm
              rw [if_neg hk, if_neg hk2]
              cases lookupAssoc (GetEngineRegistry per e2) k <;> simp
        | some d0 =>
            have hrec : (RecordDescription per e2 n2 d2).2 =
                SetEngineRegistry per e2 (GetEngineRegistry per e2) := by
              unfold RecordDescription
              simp only [getCanonical_of_found _ _ _ _ hl]
            rw [hrec, getEngineRegistry_set_same]
            by_cases hk : k = goToLower n2
            · subst hk
              rw [hl]
            · have hk2 : ¬ (e2 = e2 ∧ goToLower n2 = k) := fun hc => hk hc.2.symm
              rw [if_neg hk2]
      · have hrec : GetEngineRegistry (RecordDescription per e2 n2 d2).2 e =
            GetEngineRegistry per e := by
          unfold RecordDescription
          simp only []
          exact getEngineRegistry_set_other _ _ _ _ he
        rw [hrec]
        have he2 : ¬ (e2 = e ∧ goToLower n2 = k) := fun hc => he hc.1
        rw [if_neg he2]

/-- **C8 counterexample.** The registry records the *first* description even
when it is empty: after recording `("db.m", "")`, a later call with the
non-empty description `"Active"` still returns `""`, although the first
non-empty description ever recorded under the key is `"Active"`. -/
theorem c8_first_nonempty_counterexample :
    (RecordDescription (RunRegistryCalls [] [("postgres", "db.m", "")])
        "postgres" "db.m" "Active").1 = "" ∧
    firstNonEmptyDescFor [("postgres", "db.m", ""), ("postgres", "db.m", "Active")]
        "postgres" (goToLower "db.m") = some "Active" ∧
    ("" : String) ≠ "Active" := by
  refine ⟨by decide, by decide, by decide⟩

/-- **C8 (amended).** The canonical description is a function of
`(engine, lower(name))` returning the *first* description ever recorded under
that key (empty or not): starting from an empty registry, any later call with
the same key — under any letter-casing of the name and with any description
argument — returns the first recording's description (or records its own when
the key is new); and calls under other engines never change an engine's
registry. -/
theorem c8_first_recorded_wins :
    (∀ (cs : List (String × String × String)) (e n d : String),
      (RecordDescription (RunRegistryCalls [] cs) e n d).1 =
        (firstDescFor cs e (goToLower n)).getD d) ∧
    (∀ (per : EngineRegistries) (cs : List (String × String × String)) (e : String),
      (∀ c ∈ cs, c.1 ≠ e) →
      GetEngineRegistry (RunRegistryCalls per cs) e = GetEngineRegistry per e) := by
  constructor
  · intro cs e n d
    have h := runRegistryCalls_lookup cs [] e (goToLower n)
    have hnil : lookupAssoc (GetEngineRegistry ([] : EngineRegistries) e) (goToLower n) = none := rfl
    rw [hnil] at h
    rw [recordDescription_fst, h]
    cases firstDescFor cs e (goToLower n) <;> simp
  · intro per cs e h
    induction cs generalizing per with
    | nil => rfl
    | cons c cs ih =>
        show GetEngineRegistry (RunRegistryCalls (RecordDescription per c.1 c.2.1 c.2.2).2 cs) e = _
        rw [ih _ fun c2 hc2 => h c2 (List.mem_cons_of_mem _ hc2)]
        unfold RecordDescription
        exact getEngineRegistry_set_other _ _ _ _ (h c (List.mem_cons_self _ _))

/-- **C8 witness.** First-recorded-wins at a concrete sequence: after
recording `DB.M ↦ "first"` under postgres, a differently-cased lookup with a
different description returns `"first"`; recordings under mysql leave the
postgres registry unchanged. -/
theorem c8_first_recorded_wins_witness :
    (RecordDescription (RunRegistryCalls [] [("postgres", "DB.M", "first")])
        "postgres" "db.m" "second").1 = "first" ∧
    GetEngineRegistry
        (RunRegistryCalls [("postgres", [("db.m", "first")])] [("mysql", "db.m", "other")])
        "postgres" = [("db.m", "first")] := by
  constructor
  · exact (c8_first_recorded_wins.1 [("postgres", "DB.M", "first")]
      "postgres" "db.m" "second").trans (by decide)
  · exact c8_first_recorded_wins.2 [("postgres", [("db.m", "first")])]
      [("mysql", "db.m", "other")] "postgres" (by decide)

/-- **C10.** Atomicity of the instance-cache refresh on error: whenever
`GetInstances` triggers a refresh (nil cache, never updated, or TTL expired)
and the retried discovery call fails, the error is returned and the manager
state — the cached instance list and its last-updated stamp — is exactly the
state before the call. -/
theorem c10_refresh_error_atomicity (e : String) (filt : Option PatternFilter)
    (maxInstances ttl now : Nat) (st : InstMgrState)
    (h : needsRefresh st now ttl = true) :
    GetInstances (.error e) filt maxInstances ttl now st = (.error e, st) := by
  unfold GetInstances
  rw [if_pos h]

/-- **C10 witness.** The atomicity at a concrete stale state: a populated
cache with an expired TTL is left untouched by a failing refresh. -/
theorem c10_refresh_error_atomicity_witness :
    GetInstances (.error "throttled") none 25 300 1000
        ⟨some [⟨"db-A", "a", "postgres", 5⟩], 10⟩ =
      (.error "throttled", ⟨some [⟨"db-A", "a", "postgres", 5⟩], 10⟩) := by
  exact c10_refresh_error_atomicity "throttled" none 25 300 1000
    ⟨some [⟨"db-A", "a", "postgres", 5⟩], 10⟩ (by decide)

/-- A recognised engine string is a valid engine. -/
theorem newEngine_valid (s : String) (h : NewEngine s ≠ "") :
    engineIsValid (NewEngine s) = true := by
  unfold NewEngine at h ⊢
  split_ifs at h ⊢ with h1 h2 h3
  · rcases h1 with h1 | h1 | h1 | h1 | h1 <;> subst h1 <;> decide
  · decide
  · decide
  · exact absurd rfl h

/-- Every instance kept by the discovery loop satisfies the element
invariant. -/
theorem discoverLoop_valid (filt : Option PatternFilter) :
    ∀ records, ∀ inst ∈ discoverLoop filt records, validInstance inst := by
  intro records
  induction records with
  | nil => intro inst h; simp [discoverLoop] at h
  | cons record rest ih =>
      intro inst h
      simp only [discoverLoop] at h
      split at h
      · exact ih inst h
      · rename_i fields hfields
        split at h
        · exact ih inst h
        · split at h
          · exact ih inst h
          · rename_i hkeep hnonempty
            rcases List.mem_cons.mp h with h1 | h2
            · subst h1
              rw [not_or] at hnonempty
              unfold builtInstance at hnonempty ⊢
              split_ifs at hnonempty ⊢ with hpi
              · exact ⟨hnonempty.1, hnonempty.2, newEngine_valid _ hpi.2⟩
              · exact absurd rfl hnonempty.1
            · exact ih inst h2

/-- Membership through the sorting insertion. -/
theorem mem_insertByCreation (x y : Instance) :
    ∀ l, y ∈ insertByCreation x l ↔ y = x ∨ y ∈ l := by
  intro l
  induction l with
  | nil => simp [insertByCreation]
  | cons z zs ih =>
      unfold insertByCreation
      split_ifs with hlt
      · simp [or_comm, or_assoc, or_left_comm]
      · simp only [List.mem_cons, ih]
        tauto

/-- Membership through the creation-time sort. -/
theorem mem_sortByCreation (y : Instance) :
    ∀ l, y ∈ sortByCreation l ↔ y ∈ l := by
  intro l
  induction l with
  | nil => simp [sortByCreation]
  | cons z zs ih =>
      unfold sortByCreation
      rw [mem_insertByCreation]
      simp [ih]

/-- Inserting preserves ascending creation order. -/
theorem sortedByCreation_insert (x : Instance) :
    ∀ l, sortedByCreation l → sortedByCreation (insertByCreation x l) := by
  intro l
  induction l with
  | nil => intro _; exact List.chain'_singleton x
  | cons z zs ih =>
      intro h
      unfold insertByCreation
      split_ifs with hlt
      · refine List.chain'_cons'.mpr ⟨?_, h⟩
        intro y hy
        simp at hy
        subst hy
        exact Nat.le_of_lt hlt
      · have hzs : sortedByCreation zs := (List.chain'_cons'.mp h).2
        have hhead : ∀ y ∈ zs.head?, z.CreationTime ≤ y.CreationTime :=
          (List.chain'_cons'.mp h).1
        refine List.chain'_cons'.mpr ⟨?_, ih hzs⟩
        intro y hy
        cases zs with
        | nil =>
            simp [insertByCreation] at hy
            subst hy
            exact Nat.le_of_not_lt hlt
        | cons w ws =>
            unfold insertByCreation at hy
            split_ifs at hy with hlt2
            · simp at hy
              subst hy
              exact Nat.le_of_not_lt hlt
            · simp at hy
              subst hy
              exact hhead w (by simp)

/-- The creation-time sort produces an ascending list. -/
theorem sortByCreation_sorted : ∀ l, sortedByCreation (sortByCreation l) := by
  intro l
  induction l with
  | nil => exact List.chain'_nil
  | cons z zs ih => exact sortedByCreation_insert z _ ih

/-- **C5.** Instance-list invariants of `GetInstances`: provided every cached
list already satisfies them (true initially, the cache being nil), any list
returned or installed by a call satisfies them — every element has a
non-empty resource id, a non-empty identifier and a valid engine; creation
times ascend; and the length is at most `maxInstances`. -/
theorem c5_instance_list_invariants (fetch : Except String (List DBInstanceRecord))
    (filt : Option PatternFilter) (maxInstances ttl now : Nat) (st : InstMgrState)
    (hcache : ∀ l0, st.Instances = some l0 → goodInstanceList maxInstances l0) :
    (∀ l st2, GetInstances fetch filt maxInstances ttl now st = (.ok l, st2) →
      goodInstanceList maxInstances l) ∧
    (∀ r st2, GetInstances fetch filt maxInstances ttl now st = (r, st2) →
      ∀ l2, st2.Instances = some l2 → goodInstanceList maxInstances l2) := by
  have hdisc : ∀ records, goodInstanceList maxInstances
      (if (discoverInstances filt records).length > maxInstances then
        (discoverInstances filt records).take maxInstances
      else discoverInstances filt records) := by
    intro records
    have hval : ∀ inst ∈ discoverInstances filt records, validInstance inst := by
      intro inst h
      unfold discoverInstances at h
      exact discoverLoop_valid filt records inst ((mem_sortByCreation inst _).mp h)
    have hsort : sortedByCreation (discoverInstances filt records) :=
      sortByCreation_sorted _
    split_ifs with hlen
    · refine ⟨fun inst h => hval inst (List.mem_of_mem_take h),
        List.Chain'.take hsort maxInstances, ?_⟩
      rw [List.length_take]
      omega
    · exact ⟨hval, hsort, by omega⟩
  unfold GetInstances
  split_ifs with href
  · cases fetch with
    | error e =>
        constructor
        · intro l st2 hl
          cases hl
        · intro r st2 hr l2 hl2
          cases hr
          exact hcache l2 hl2
    | ok records =>
        constructor
        · intro l st2 hl
          cases hl
          exact hdisc records
        · intro r st2 hr l2 hl2
          cases hr
          simp only at hl2
          cases hl2
          exact hdisc records
  · constructor
    · intro l st2 hl
      cases hl
      cases hst : st.Instances with
      | none =>
          unfold needsRefresh at href
          simp [hst] at href
      | some l0 =>
          have hgood := hcache l0 hst
          simpa using hgood
    · intro r st2 hr l2 hl2
      cases hr
      exact hcache l2 hl2

/-- **C5 witness.** The invariants at a concrete discovery: four raw records —
one PI-disabled, one with an unknown engine, two valid ones listed
newest-first — produce a two-element list sorted oldest-first, within the
cap. -/
theorem c5_instance_list_invariants_witness :
    GetInstances (.ok
        [⟨some "postgres", some "available", some true, some "db-NEW", some "new-db", some 500⟩,
         ⟨some "postgres", some "available", some false, some "db-OFF", some "off-db", some 300⟩,
         ⟨some "futuredb", some "available", some true, some "db-UNK", some "unk-db", some 200⟩,
         ⟨some "aurora-mysql", some "available", some true, some "db-OLD", some "old-db", some 100⟩])
        none 25 300 1000 ⟨none, 0⟩ =
      (.ok [⟨"db-OLD", "old-db", "aurora-mysql", 100⟩, ⟨"db-NEW", "new-db", "postgres", 500⟩],
       ⟨some [⟨"db-OLD", "old-db", "aurora-mysql", 100⟩, ⟨"db-NEW", "new-db", "postgres", 500⟩], 1000⟩) ∧
    goodInstanceList 25
      [⟨"db-OLD", "old-db", "aurora-mysql", 100⟩, ⟨"db-NEW", "new-db", "postgres", 500⟩] := by
  constructor
  · rfl
  · exact (c5_instance_list_invariants (.ok
        [⟨some "postgres", some "available", some true, some "db-NEW", some "new-db", some 500⟩,
         ⟨some "postgres", some "available", some false, some "db-OFF", some "off-db", some 300⟩,
         ⟨some "futuredb", some "available", some true, some "db-UNK", some "unk-db", some 200⟩,
         ⟨some "aurora-mysql", some "available", some true, some "db-OLD", some "old-db", some 100⟩])
        none 25 300 1000 ⟨none, 0⟩ (fun l0 h => by cases h)).1
      [⟨"db-OLD", "old-db", "aurora-mysql", 100⟩, ⟨"db-NEW", "new-db", "postgres", 500⟩]
      ⟨some [⟨"db-OLD", "old-db", "aurora-mysql", 100⟩, ⟨"db-NEW", "new-db", "postgres", 500⟩], 1000⟩
      rfl

/-- **C1.** Partial-failure tolerance of a scrape: with instances `[A, B]`
where A's catalog fetch errors with `e` and B's succeeds with batches `bs`,
`CollectMetrics` emits exactly the samples of every one of B's batches (A
contributes none) and returns A's catalog error as the representative error —
whatever errors the per-batch collection may produce.  In general the emitted
samples are those of all batches of all catalog-successful instances: a
failing `CollectMetricsForBatch` never suppresses a sibling batch. -/
theorem c1_partial_failure_tolerance {I E S : Type}
    (getMetricBatches : I → Except E (List (List String)))
    (collectBatch : I → List String → List S × Option E)
    (instA instB : I) (e : E) (bs : List (List String))
    (hA : getMetricBatches instA = .error e) (hB : getMetricBatches instB = .ok bs) :
    CollectMetrics (.ok [instA, instB]) getMetricBatches collectBatch =
      .ok ((bs.map fun b => (collectBatch instB b).1).flatten, some e) ∧
    (∀ batchResults : List (InstanceBatches I E),
      (drainQueue collectBatch batchResults).1 =
        (batchResults.map fun r =>
          match r.err with
          | some _ => []
          | none => (r.batches.map fun b => (collectBatch r.inst b).1).flatten).flatten) := by
  constructor
  · unfold CollectMetrics collectMetricsWithQueue fetchMetricBatchesInParallel
    simp only [List.map_cons, List.map_nil, hA, hB]
    unfold drainQueue drainQueue drainQueue
    simp [List.map_map, Function.comp_def]
  · intro batchResults
    induction batchResults with
    | nil => rfl
    | cons r rest ih =>
        unfold drainQueue
        cases hr : r.err with
        | some e2 => simp [hr, ih]
        | none => simp [hr, ih, List.map_map, Function.comp_def]

/-- **C1 witness.** The scrape at two concrete instances: A's catalog errors,
B has batches `[[m1, m2], [m3]]` whose collection echoes the batch; all three
samples are emitted and A's error is returned. -/
theorem c1_partial_failure_tolerance_witness :
    CollectMetrics
        (.ok ["A", "B"])
        (fun i => if i = "A" then .error "catalog-err" else .ok [["m1", "m2"], ["m3"]])
        (fun _ b => ((b, none) : List String × Option String)) =
      .ok (["m1", "m2", "m3"], some "catalog-err") := by
  exact (c1_partial_failure_tolerance
      (fun i => if i = "A" then .error "catalog-err" else .ok [["m1", "m2"], ["m3"]])
      (fun _ b => ((b, none) : List String × Option String))
      "A" "B" "catalog-err" [["m1", "m2"], ["m3"]] rfl rfl).1.trans (by rfl)

end DBI
